import Mathlib

/-!
Verification development for `src/create-backup.py`: a single script that
mirrors a source directory tree into a backup directory, pruning a fixed set
of excluded subdirectory names during an `os.walk` traversal, copying each
file, counting files copied and directories created, and mapping failures to
process exit codes.

The embedding below follows the Python source line by line:
* `exclude_dirs` — line 19;
* `osWalk` / `osWalkList` — the `os.walk(source_dir)` traversal together with
  the in-place pruning `dirs[:] = [d for d in dirs if d not in exclude_dirs]`
  (lines 44-46): each yielded entry is the directory's path relative to the
  source root paired with the names and contents of its regular files, and an
  excluded child contributes nothing (its subtree is never visited);
* `visitDir` — the body of the walk loop (lines 48-70): create the
  destination directory, bump the directory counter for non-root directories,
  then attempt to copy each file, bumping the file counter on success and
  recording a warning naming the source path and the error on failure;
* `create_backup` — lines 29-79: fail with `sys.exit(1)` when the source
  path does not exist (`source_dir.exists()`, line 30), create the backup
  root, walk and copy;
* `mainExit` / `mainReport` — the `__main__` handler (lines 95-103):
  `KeyboardInterrupt` is caught distinctly and reported as a cancellation
  with exit status 1, any other `Exception` is reported as a failure with
  exit status 1, and `SystemExit` (raised by `sys.exit(1)`) passes through
  both handlers and terminates the process with its code.

Filesystem effects are recorded as an explicit `Action` trace whose
vocabulary can also express deletions and writes under the source root, so
that frame properties (the script only ever creates directories under the
backup root and copies files into it) are non-vacuous.  `applyAction`
interprets a trace over an explicit destination state `DestFS`.

Per-file copy outcomes (`shutil.copy2`, line 65) are modelled by an oracle
`fails : Path → Option String` giving, for each source-relative file path,
the error message raised for that file, or `none` when the copy succeeds.
Faults that the script treats as fatal (the backup root being uncreatable at
line 35, a user interrupt) are modelled by an injected `Fault`.
-/

namespace CreateBackup

/-- A filesystem path relative to a root, as a list of components; `[]` is
the root itself. -/
abbrev Path := List String

/-- Line 19: `exclude_dirs = {'node_modules', '.git', '__pycache__', '.next',
'dist', 'build'}`. -/
def exclude_dirs : List String :=
  ["node_modules", ".git", "__pycache__", ".next", "dist", "build"]

/-- A source directory tree: the regular files directly in the directory
(name and content) and the named subdirectories. -/
inductive SrcTree where
  | node (files : List (String × String)) (subdirs : List (String × SrcTree))

/-- What the source path refers to when it exists: a regular file or a
directory.  `Path.exists()` (line 30) is true for both, and `os.walk` over a
non-directory yields nothing. -/
inductive SrcEntry where
  | file (content : String)
  | dir (tree : SrcTree)

/-- Which root of the real filesystem an action touches: the source tree or
the backup tree. -/
inductive Root where
  | sourceRoot
  | backupRoot
deriving DecidableEq

/-- A filesystem side effect.  The script only ever issues
`mkdir backupRoot` (`mkdir(parents=True, exist_ok=True)`, lines 35 and 56)
and `copyFile _ backupRoot` (`shutil.copy2`, line 65); `removePath` and
source-rooted actions are expressible so that frame claims about the trace
are meaningful. -/
inductive Action where
  | mkdir (root : Root) (p : Path)
  | copyFile (src : Path) (root : Root) (dst : Path) (content : String)
  | removePath (root : Root) (p : Path)
deriving DecidableEq

/-- The destination filesystem state: the set of existing directories
(paths relative to the backup root, `[]` being the backup root itself) and
the files, as a path-to-content association list. -/
structure DestFS where
  dirs : List Path
  files : List (Path × String)
deriving DecidableEq

/-- The empty destination: nothing exists yet under the backup root. -/
def emptyDest : DestFS := ⟨[], []⟩

/-- Insert a directory path if not already present (`exist_ok=True`). -/
def insertOnce (p : Path) (l : List Path) : List Path :=
  if p ∈ l then l else l ++ [p]

/-- `mkdir(parents=True, exist_ok=True)`: create the directory and every
missing ancestor, silently keeping the ones that exist. -/
def mkdirParents (p : Path) (l : List Path) : List Path :=
  p.inits.foldl (fun acc q => insertOnce q acc) l

/-- Write a file: replace the binding of `p` if present, else append it. -/
def setFile (p : Path) (c : String) : List (Path × String) → List (Path × String)
  | [] => [(p, c)]
  | (q, d) :: rest => if q = p then (p, c) :: rest else (q, d) :: setFile p c rest

/-- Read a file from the destination state. -/
def lookupFile (p : Path) : List (Path × String) → Option String
  | [] => none
  | (q, c) :: rest => if q = p then some c else lookupFile p rest

/-- Interpret one action over the destination state.  Actions under the
source root do not touch the destination state. -/
def applyAction (d : DestFS) : Action → DestFS
  | .mkdir .backupRoot p => { d with dirs := mkdirParents p d.dirs }
  | .mkdir .sourceRoot _ => d
  | .copyFile _ .backupRoot p c => { d with files := setFile p c d.files }
  | .copyFile _ .sourceRoot _ _ => d
  | .removePath .backupRoot p =>
      { dirs := d.dirs.filter (fun q => decide (q ≠ p)),
        files := d.files.filter (fun qc => decide (qc.1 ≠ p)) }
  | .removePath .sourceRoot _ => d

/-- Interpret a trace of actions, in order, over a destination state. -/
def destAfter (acts : List Action) (d : DestFS) : DestFS :=
  acts.foldl applyAction d

/-- The mutable run state of `create_backup`: the two counters
(`copied_files`, `copied_dirs`, lines 41-42), the warnings emitted for
failed copies (line 70, each naming the source path and the error), and the
trace of filesystem actions issued so far. -/
structure RunState where
  copied_files : Nat
  copied_dirs : Nat
  warnings : List (Path × String)
  trace : List Action
deriving DecidableEq

/-- The state at the top of `create_backup`'s copy loop: counters zero,
no warnings, no actions. -/
def initState : RunState := ⟨0, 0, [], []⟩

/-- Lines 61-70: one iteration of `for file in files`: try to copy
`root/file` to `dest_root/file`; on success count it, on failure record a
warning with the source path and the error and continue. -/
def copyStep (fails : Path → Option String) (rel : Path) (s : RunState)
    (nc : String × String) : RunState :=
  match fails (rel ++ [nc.1]) with
  | none =>
      { s with copied_files := s.copied_files + 1,
               trace := s.trace ++ [.copyFile (rel ++ [nc.1]) .backupRoot (rel ++ [nc.1]) nc.2] }
  | some e => { s with warnings := s.warnings ++ [(rel ++ [nc.1], e)] }

/-- Lines 48-70, the body of the walk loop for one yielded directory:
compute the destination directory for `rel` (the backup root itself when
`rel` is `'.'`, i.e. `[]`), create it, count it unless it is the root, then
process every file in it. -/
def visitDir (fails : Path → Option String) (rel : Path)
    (files : List (String × String)) (s : RunState) : RunState :=
  let s1 := { s with trace := s.trace ++ [.mkdir .backupRoot rel],
                     copied_dirs := s.copied_dirs + (if rel = [] then 0 else 1) }
  files.foldl (copyStep fails rel) s1

mutual

/-- Lines 44-46: `os.walk(source_dir)` with the pruning
`dirs[:] = [d for d in dirs if d not in exclude_dirs]` applied at every
directory before descending.  Yields, in top-down depth-first order, each
visited directory's source-relative path with its files.  An excluded child
directory contributes nothing: its subtree is never visited. -/
def osWalk (rel : Path) : SrcTree → List (Path × List (String × String))
  | .node files subdirs => (rel, files) :: osWalkList rel subdirs

/-- The walk over the (pruned) children of a directory, in order. -/
def osWalkList (rel : Path) : List (String × SrcTree) → List (Path × List (String × String))
  | [] => []
  | (n, t) :: rest =>
      (if n ∈ exclude_dirs then [] else osWalk (rel ++ [n]) t) ++ osWalkList rel rest

end

/-- Lines 35-70 after the source check has passed: create the backup root
(`backup_dir.mkdir(parents=True, exist_ok=True)`, line 35), then run the
walk loop.  When the source path exists but is a regular file, `os.walk`
yields nothing and the loop body never runs. -/
def runWalk (fails : Path → Option String) (entry : SrcEntry) : RunState :=
  let s0 : RunState := { initState with trace := [.mkdir .backupRoot []] }
  match entry with
  | .file _ => s0
  | .dir t => (osWalk [] t).foldl (fun s rf => visitDir fails rf.1 rf.2 s) s0

/-- A fatal fault injected into the run: the backup root cannot be created
at line 35 (raises an ordinary `Exception` with a message), or the user
interrupts the run (`KeyboardInterrupt`). -/
inductive Fault where
  | destMkdirError (msg : String)
  | interrupt
deriving DecidableEq

/-- How a Python call ends: a normal return, `sys.exit(code)` (raising
`SystemExit`, which is not an `Exception`), a `KeyboardInterrupt`, or an
ordinary `Exception` carrying a message. -/
inductive PyOutcome (α : Type) where
  | ok (val : α)
  | sysExit (code : Nat)
  | keyboardInterrupt
  | exn (msg : String)

/-- Whether the call returned normally. -/
def PyOutcome.isOk {α : Type} : PyOutcome α → Bool
  | .ok _ => true
  | _ => false

/-- Lines 29-79, `create_backup()`: if the source path does not exist,
print an error and `sys.exit(1)` (lines 30-32) — before any write to the
destination; otherwise create the backup root (where an injected fault
surfaces) and run the copy loop, returning the final counters, warnings and
trace. -/
def create_backup (fails : Path → Option String) (src : Option SrcEntry)
    (fault : Option Fault) : PyOutcome RunState :=
  match src with
  | none => .sysExit 1
  | some entry =>
      match fault with
      | some (.destMkdirError m) => .exn m
      | some .interrupt => .keyboardInterrupt
      | none => .ok (runWalk fails entry)

/-- What the `__main__` handler (lines 95-103) reports on the console. -/
inductive Report where
  | completed (s : RunState)
  | cancelled
  | failed (msg : String)
  | exited (code : Nat)
deriving DecidableEq

/-- Lines 95-103: `KeyboardInterrupt` is caught distinctly and reported as
a cancellation; any other `Exception` is reported as a failure;
`SystemExit` passes through (it is not an `Exception`) after
`create_backup` has already printed its own error; a normal return prints
the completion summary. -/
def mainReport : PyOutcome RunState → Report
  | .ok s => .completed s
  | .keyboardInterrupt => .cancelled
  | .exn m => .failed m
  | .sysExit c => .exited c

/-- The process exit status for each outcome of `create_backup()`:
`0` on normal return, the carried code for `sys.exit` (the script only ever
uses `sys.exit(1)`), and `1` for the two `except` branches. -/
def mainExit : PyOutcome RunState → Nat
  | .ok _ => 0
  | .sysExit c => c
  | .keyboardInterrupt => 1
  | .exn _ => 1

/-- The filesystem actions actually performed by a run: the recorded trace
on a normal return; a run that dies before line 35 (missing source) or at
line 35 (backup root uncreatable, interrupt) has performed none. -/
def writesOf : PyOutcome RunState → List Action
  | .ok s => s.trace
  | _ => []

/-! ## Spec-side view of the source tree

These definitions follow the specification's wording, independently of the
walk: the set of all directories of the source, the set of all files with
their source-relative paths, and the restriction to paths containing no
excluded component. -/

/-- A path contains no component belonging to the exclusion set. -/
def cleanPath (p : Path) : Bool := p.all (fun c => decide (c ∉ exclude_dirs))

mutual

/-- All directories of a source tree, as source-relative paths; `[]` is the
source root itself. -/
def srcDirs : SrcTree → List Path
  | .node _ subdirs => [] :: srcDirsList subdirs

/-- All directories contributed by a list of named subtrees. -/
def srcDirsList : List (String × SrcTree) → List Path
  | [] => []
  | (n, t) :: rest => (srcDirs t).map (fun q => n :: q) ++ srcDirsList rest

end

mutual

/-- All regular files of a source tree, with source-relative paths. -/
def srcFiles : SrcTree → List (Path × String)
  | .node files subdirs => files.map (fun nc => ([nc.1], nc.2)) ++ srcFilesList subdirs

/-- All files contributed by a list of named subtrees. -/
def srcFilesList : List (String × SrcTree) → List (Path × String)
  | [] => []
  | (n, t) :: rest => (srcFiles t).map (fun pc => (n :: pc.1, pc.2)) ++ srcFilesList rest

end

/-- The directories the mirror is specified to contain: exactly the source
directories whose path has no component in the exclusion set. -/
def mirrorDirs (t : SrcTree) : List Path := (srcDirs t).filter cleanPath

/-- The files the mirror is specified to copy: exactly the source files
lying in a non-excluded directory (the file's own name is not checked
against the exclusion set, only the directory components are). -/
def mirrorFiles (t : SrcTree) : List (Path × String) :=
  (srcFiles t).filter (fun pc => cleanPath pc.1.dropLast)

/-! ## Writer decomposition of the run state

`create_backup` only ever appends to its trace, warnings, and counters, so
each piece of the loop factors as `s ↦ s.append δ` for a contribution `δ`
depending only on the input.  This section isolates those contributions. -/

/-- Combine two run-state contributions: add the counters, concatenate the
warnings and the traces. -/
def RunState.append (s u : RunState) : RunState :=
  ⟨s.copied_files + u.copied_files, s.copied_dirs + u.copied_dirs,
   s.warnings ++ u.warnings, s.trace ++ u.trace⟩

/-- The contribution of one file iteration (lines 61-70). -/
def fileOut (fails : Path → Option String) (rel : Path) (nc : String × String) : RunState :=
  match fails (rel ++ [nc.1]) with
  | none => ⟨1, 0, [], [.copyFile (rel ++ [nc.1]) .backupRoot (rel ++ [nc.1]) nc.2]⟩
  | some e => ⟨0, 0, [(rel ++ [nc.1], e)], []⟩

/-- The contribution of the file loop of one directory. -/
def filesOut (fails : Path → Option String) (rel : Path) : List (String × String) → RunState
  | [] => initState
  | nc :: rest => (fileOut fails rel nc).append (filesOut fails rel rest)

/-- The contribution of the directory-creation part of one loop body
(lines 55-58). -/
def dirHeader (rel : Path) : RunState :=
  ⟨0, if rel = [] then 0 else 1, [], [.mkdir .backupRoot rel]⟩

/-- The contribution of one whole loop body. -/
def dirOut (fails : Path → Option String) (rel : Path)
    (files : List (String × String)) : RunState :=
  (dirHeader rel).append (filesOut fails rel files)

/-- The contribution of the walk over a list of yielded directories. -/
def walkOut (fails : Path → Option String) : List (Path × List (String × String)) → RunState
  | [] => initState
  | rf :: rest => (dirOut fails rf.1 rf.2).append (walkOut fails rest)

/-- The source-relative (path, content) pairs of the files lying in a list
of yielded directories. -/
def filesAt (l : List (Path × List (String × String))) : List (Path × String) :=
  l.flatMap (fun rf => rf.2.map (fun nc => (rf.1 ++ [nc.1], nc.2)))

/-- The copy actions emitted for one directory's files: one per file whose
copy succeeds, in file order. -/
def copyActs (fails : Path → Option String) (rel : Path)
    (files : List (String × String)) : List Action :=
  files.filterMap (fun nc =>
    match fails (rel ++ [nc.1]) with
    | none => some (.copyFile (rel ++ [nc.1]) .backupRoot (rel ++ [nc.1]) nc.2)
    | some _ => none)

/-- How one action affects membership of `p` in the destination's directory
set: `some true` when it (re)creates `p` (as the directory itself or an
ancestor), `some false` when it removes it, `none` when it leaves it
alone. -/
def dirVerdict (p : Path) : Action → Option Bool
  | .mkdir .backupRoot q => if p ∈ q.inits then some true else none
  | .removePath .backupRoot q => if q = p then some false else none
  | _ => none

/-- How one action affects the content of file `p` in the destination:
`some (some c)` when it writes content `c`, `some none` when it removes the
file, `none` when it leaves it alone. -/
def fileVerdict (p : Path) : Action → Option (Option String)
  | .copyFile _ .backupRoot q c => if q = p then some (some c) else none
  | .removePath .backupRoot q => if q = p then some none else none
  | _ => none

/-- The verdict of the last action of the trace that touches the object. -/
def lastVerdict {β : Type} (v : Action → Option β) : List Action → Option β
  | [] => none
  | a :: acts =>
      match lastVerdict v acts with
      | some r => some r
      | none => v a

/-- Two destination states are identical as filesystems: the same
directories exist and every path holds the same file content. -/
def destEquiv (d1 d2 : DestFS) : Prop :=
  (∀ p, p ∈ d1.dirs ↔ p ∈ d2.dirs) ∧ ∀ p, lookupFile p d1.files = lookupFile p d2.files

/-- An action is a pure write under the backup root: it creates a directory
there or copies a file into it; it is not a deletion and does not target
the source root. -/
def destWriteOnly : Action → Bool
  | .mkdir .backupRoot _ => true
  | .copyFile _ .backupRoot _ _ => true
  | _ => false

/-- An action never touches an excluded subtree of the destination: a
created directory has no excluded component, and a copied file lies in a
directory with no excluded component (the file's own name is free). -/
def actionClean : Action → Bool
  | .mkdir _ p => cleanPath p
  | .copyFile _ _ p _ => cleanPath p.dropLast
  | .removePath _ _ => false

/-- The concrete source tree `{a/x.txt, a/node_modules/y.txt, b.txt}` of
the specification's worked example. -/
def exampleTree : SrcTree :=
  .node [("b.txt", "B")]
    [("a", .node [("x.txt", "X")] [("node_modules", .node [("y.txt", "Y")] [])])]

/-! ## Theorems -/

@[simp] theorem append_initState (s : RunState) : s.append initState = s := by
  simp [RunState.append, initState]

@[simp] theorem initState_append (s : RunState) : initState.append s = s := by
  simp [RunState.append, initState]

theorem RunState.append_assoc (s u v : RunState) :
    (s.append u).append v = s.append (u.append v) := by
  simp [RunState.append, Nat.add_assoc]

theorem copyStep_eq (fails : Path → Option String) (rel : Path) (s : RunState)
    (nc : String × String) : copyStep fails rel s nc = s.append (fileOut fails rel nc) := by
  cases h : fails (rel ++ [nc.1]) <;>
    simp [copyStep, fileOut, RunState.append, h]

theorem foldl_copyStep (fails : Path → Option String) (rel : Path)
    (files : List (String × String)) (s : RunState) :
    files.foldl (copyStep fails rel) s = s.append (filesOut fails rel files) := by
  induction files generalizing s with
  | nil => simp [filesOut]
  | cons nc rest ih =>
      rw [List.foldl_cons, ih, copyStep_eq, filesOut, RunState.append_assoc]

theorem visitDir_eq (fails : Path → Option String) (rel : Path)
    (files : List (String × String)) (s : RunState) :
    visitDir fails rel files s = s.append (dirOut fails rel files) := by
  rw [visitDir, dirOut, ← RunState.append_assoc, foldl_copyStep]
  congr 1
  simp [RunState.append, dirHeader]

theorem foldl_visitDir (fails : Path → Option String)
    (l : List (Path × List (String × String))) (s : RunState) :
    l.foldl (fun s rf => visitDir fails rf.1 rf.2 s) s = s.append (walkOut fails l) := by
  induction l generalizing s with
  | nil => simp [walkOut]
  | cons rf rest ih =>
      rw [List.foldl_cons, ih, visitDir_eq, walkOut, RunState.append_assoc]

/-- The run on a source directory decomposes into the initial backup-root
creation followed by the walk contribution. -/
theorem runWalk_dir (fails : Path → Option String) (t : SrcTree) :
    runWalk fails (.dir t) =
      RunState.append ⟨0, 0, [], [.mkdir .backupRoot []]⟩ (walkOut fails (osWalk [] t)) := by
  rw [runWalk]
  exact foldl_visitDir fails (osWalk [] t) _

/-! ## Interpreting traces over the destination state -/

theorem mem_insertOnce (p r : Path) (l : List Path) :
    p ∈ insertOnce r l ↔ p = r ∨ p ∈ l := by
  unfold insertOnce
  split
  · rename_i h
    constructor
    · exact fun hm => Or.inr hm
    · rintro (rfl | hm)
      · exact h
      · exact hm
  · simp [or_comm]

theorem mem_foldl_insertOnce (p : Path) (L : List Path) (l : List Path) :
    p ∈ L.foldl (fun acc q => insertOnce q acc) l ↔ p ∈ L ∨ p ∈ l := by
  induction L generalizing l with
  | nil => simp
  | cons r L ih =>
      rw [List.foldl_cons, ih, mem_insertOnce]
      simp
      tauto

theorem mem_mkdirParents (p q : Path) (l : List Path) :
    p ∈ mkdirParents q l ↔ p ∈ q.inits ∨ p ∈ l := by
  unfold mkdirParents
  exact mem_foldl_insertOnce p q.inits l

theorem lookupFile_setFile (x p : Path) (c : String) (fs : List (Path × String)) :
    lookupFile x (setFile p c fs) = if p = x then some c else lookupFile x fs := by
  induction fs with
  | nil => simp [setFile, lookupFile]
  | cons qc rest ih =>
      obtain ⟨q, d⟩ := qc
      by_cases hq : q = p
      · subst hq
        by_cases hx : q = x <;> simp [setFile, lookupFile, hx]
      · by_cases hx : q = x
        · subst hx
          have hpq : ¬ (p = q) := fun h => hq h.symm
          simp [setFile, lookupFile, hq, hpq]
        · simp [setFile, lookupFile, hq, hx, ih]

theorem lookupFile_filterRemove (x p : Path) (fs : List (Path × String)) :
    lookupFile x (fs.filter (fun qc => decide (qc.1 ≠ p))) =
      if p = x then none else lookupFile x fs := by
  induction fs with
  | nil => simp [lookupFile]
  | cons qc rest ih =>
      obtain ⟨q, d⟩ := qc
      simp only [ne_eq, decide_not] at ih ⊢
      by_cases hq : q = p
      · subst hq
        by_cases hx : q = x
        · subst hx
          simp [List.filter_cons, lookupFile, ih]
        · simp [List.filter_cons, lookupFile, hx, ih]
      · by_cases hx : q = x
        · subst hx
          have hpq : ¬ (p = q) := fun h => hq h.symm
          simp [List.filter_cons, lookupFile, hq, hpq]
        · simp [List.filter_cons, lookupFile, hq, hx, ih]

theorem mem_dirs_applyAction (d : DestFS) (a : Action) (p : Path) :
    p ∈ (applyAction d a).dirs ↔
      (match dirVerdict p a with
       | some b => b = true
       | none => p ∈ d.dirs) := by
  cases a with
  | mkdir root q =>
      cases root with
      | backupRoot =>
          by_cases h : p ∈ q.inits <;>
            simp [applyAction, dirVerdict, mem_mkdirParents, h]
      | sourceRoot => simp [applyAction, dirVerdict]
  | copyFile sp root q c =>
      cases root <;> simp [applyAction, dirVerdict]
  | removePath root q =>
      cases root with
      | backupRoot =>
          by_cases h : q = p
          · subst h
            simp [applyAction, dirVerdict, List.mem_filter]
          · have hpq : ¬ p = q := fun hh => h hh.symm
            simp [applyAction, dirVerdict, List.mem_filter, h, hpq]
      | sourceRoot => simp [applyAction, dirVerdict]

theorem lookup_applyAction (d : DestFS) (a : Action) (p : Path) :
    lookupFile p (applyAction d a).files =
      (fileVerdict p a).getD (lookupFile p d.files) := by
  cases a with
  | mkdir root q => cases root <;> simp [applyAction, fileVerdict]
  | copyFile sp root q c =>
      cases root with
      | backupRoot =>
          by_cases h : q = p <;>
            simp [applyAction, fileVerdict, lookupFile_setFile, h]
      | sourceRoot => simp [applyAction, fileVerdict]
  | removePath root q =>
      cases root with
      | backupRoot =>
          simp only [applyAction]
          rw [lookupFile_filterRemove]
          by_cases h : q = p <;> simp [fileVerdict, h]
      | sourceRoot => simp [applyAction, fileVerdict]

theorem mem_dirs_destAfter (A : List Action) (d : DestFS) (p : Path) :
    p ∈ (destAfter A d).dirs ↔
      (match lastVerdict (dirVerdict p) A with
       | some b => b = true
       | none => p ∈ d.dirs) := by
  induction A generalizing d with
  | nil => simp [destAfter, lastVerdict]
  | cons a A ih =>
      have hstep : destAfter (a :: A) d = destAfter A (applyAction d a) := rfl
      rw [hstep, ih]
      cases h : lastVerdict (dirVerdict p) A with
      | some r => simp [lastVerdict, h]
      | none =>
          simp only [lastVerdict, h]
          rw [mem_dirs_applyAction]

theorem lookup_destAfter (A : List Action) (d : DestFS) (p : Path) :
    lookupFile p (destAfter A d).files =
      (lastVerdict (fileVerdict p) A).getD (lookupFile p d.files) := by
  induction A generalizing d with
  | nil => simp [destAfter, lastVerdict]
  | cons a A ih =>
      have hstep : destAfter (a :: A) d = destAfter A (applyAction d a) := rfl
      rw [hstep, ih]
      cases h : lastVerdict (fileVerdict p) A with
      | some r => simp [lastVerdict, h]
      | none =>
          simp only [lastVerdict, h]
          rw [lookup_applyAction]
          simp

/-- Replaying any trace over its own result changes nothing: the final
destination state is idempotent under re-running the same actions. -/
theorem destAfter_idem (A : List Action) (d : DestFS) :
    destEquiv (destAfter A (destAfter A d)) (destAfter A d) := by
  constructor
  · intro p
    rw [mem_dirs_destAfter, mem_dirs_destAfter A d p]
    cases h : lastVerdict (dirVerdict p) A <;> simp [h]
  · intro p
    rw [lookup_destAfter, lookup_destAfter A d p]
    cases h : lastVerdict (fileVerdict p) A <;> simp [h]

/-! ## The walk against the spec-side view of the source tree -/

theorem cleanPath_nil : cleanPath [] = true := rfl

theorem cleanPath_cons (n : String) (p : Path) :
    cleanPath (n :: p) = (decide (n ∉ exclude_dirs) && cleanPath p) := rfl

theorem cleanPath_cons_of_mem {n : String} (hn : n ∈ exclude_dirs) (p : Path) :
    cleanPath (n :: p) = false := by
  rw [cleanPath_cons, decide_eq_false (not_not_intro hn), Bool.false_and]

theorem cleanPath_cons_of_not_mem {n : String} (hn : n ∉ exclude_dirs) (p : Path) :
    cleanPath (n :: p) = cleanPath p := by
  rw [cleanPath_cons, decide_eq_true hn, Bool.true_and]

theorem mem_mirrorDirs (t : SrcTree) (p : Path) :
    p ∈ mirrorDirs t ↔ p ∈ srcDirs t ∧ cleanPath p = true := by
  simp [mirrorDirs, List.mem_filter]

mutual

/-- The directories visited by the pruned walk are exactly the non-excluded
source directories, in preorder, shifted under `rel`. -/
theorem osWalk_map_fst (rel : Path) (t : SrcTree) :
    (osWalk rel t).map Prod.fst = (mirrorDirs t).map (fun q => rel ++ q) := by
  cases t with
  | node fs subs =>
      have h := osWalkList_map_fst rel subs
      rw [osWalk, mirrorDirs, srcDirs, List.filter_cons]
      rw [cleanPath_nil, if_pos rfl, List.map_cons, List.map_cons]
      rw [List.append_nil]
      exact congrArg _ h

theorem osWalkList_map_fst (rel : Path) (l : List (String × SrcTree)) :
    (osWalkList rel l).map Prod.fst =
      ((srcDirsList l).filter cleanPath).map (fun q => rel ++ q) := by
  match l with
  | [] => simp [osWalkList, srcDirsList]
  | (n, t) :: rest =>
      have h2 := osWalkList_map_fst rel rest
      rw [osWalkList, srcDirsList, List.map_append, List.filter_append, List.map_append, h2]
      congr 1
      by_cases hn : n ∈ exclude_dirs
      · rw [if_pos hn, List.filter_map]
        have hnil : List.filter (cleanPath ∘ fun q => n :: q) (srcDirs t) = [] := by
          apply List.filter_eq_nil_iff.mpr
          intro q _
          show ¬ (cleanPath (n :: q) = true)
          rw [cleanPath_cons_of_mem hn]
          exact Bool.false_ne_true
        rw [hnil]
        simp
      · rw [if_neg hn]
        have h1 := osWalk_map_fst (rel ++ [n]) t
        rw [h1, mirrorDirs, List.filter_map]
        have hcong : List.filter (cleanPath ∘ fun q => n :: q) (srcDirs t) =
            List.filter cleanPath (srcDirs t) := by
          apply List.filter_congr
          intro q _
          show cleanPath (n :: q) = cleanPath q
          exact cleanPath_cons_of_not_mem hn q
        rw [hcong, List.map_map]
        apply List.map_congr_left
        intro q _
        show (rel ++ [n]) ++ q = rel ++ (n :: q)
        rw [List.append_assoc]
        rfl

end

mutual

/-- Every file of a source tree sits strictly below the root: its relative
path is nonempty. -/
theorem srcFiles_path_ne_nil (t : SrcTree) :
    ∀ pc ∈ srcFiles t, pc.1 ≠ [] := by
  cases t with
  | node fs subs =>
      intro pc hpc
      rw [srcFiles, List.mem_append] at hpc
      rcases hpc with h | h
      · obtain ⟨nc, _, rfl⟩ := List.mem_map.mp h
        simp
      · exact srcFilesList_path_ne_nil subs pc h

theorem srcFilesList_path_ne_nil (l : List (String × SrcTree)) :
    ∀ pc ∈ srcFilesList l, pc.1 ≠ [] := by
  match l with
  | [] => intro pc hpc; simp [srcFilesList] at hpc
  | (n, t) :: rest =>
      intro pc hpc
      rw [srcFilesList, List.mem_append] at hpc
      rcases hpc with h | h
      · obtain ⟨qc, _, rfl⟩ := List.mem_map.mp h
        simp
      · exact srcFilesList_path_ne_nil rest pc h

end

mutual

/-- The files encountered by the pruned walk are exactly the source files
lying in non-excluded directories, in walk order, shifted under `rel`. -/
theorem osWalk_filesAt (rel : Path) (t : SrcTree) :
    filesAt (osWalk rel t) = (mirrorFiles t).map (fun pc => (rel ++ pc.1, pc.2)) := by
  cases t with
  | node fs subs =>
      have h := osWalkList_filesAt rel subs
      rw [osWalk, filesAt, List.flatMap_cons]
      have hrest : (osWalkList rel subs).flatMap
          (fun rf => rf.2.map (fun nc => (rf.1 ++ [nc.1], nc.2))) =
          filesAt (osWalkList rel subs) := rfl
      rw [hrest, h, mirrorFiles, srcFiles, List.filter_append, List.map_append]
      congr 1
      rw [List.filter_map]
      have hall : List.filter ((fun pc : Path × String => cleanPath pc.1.dropLast) ∘
          fun nc : String × String => ([nc.1], nc.2)) fs = fs := by
        apply List.filter_eq_self.mpr
        intro nc _
        rfl
      rw [hall, List.map_map]
      apply List.map_congr_left
      intro nc _
      rfl

theorem osWalkList_filesAt (rel : Path) (l : List (String × SrcTree)) :
    filesAt (osWalkList rel l) =
      ((srcFilesList l).filter (fun pc => cleanPath pc.1.dropLast)).map
        (fun pc => (rel ++ pc.1, pc.2)) := by
  match l with
  | [] => simp [osWalkList, srcFilesList, filesAt]
  | (n, t) :: rest =>
      have h2 := osWalkList_filesAt rel rest
      rw [osWalkList, srcFilesList, filesAt, List.flatMap_append]
      have e1 : (osWalkList rel rest).flatMap
          (fun rf => rf.2.map (fun nc => (rf.1 ++ [nc.1], nc.2))) =
          filesAt (osWalkList rel rest) := rfl
      have e2 : (if n ∈ exclude_dirs then [] else osWalk (rel ++ [n]) t).flatMap
          (fun rf => rf.2.map (fun nc => (rf.1 ++ [nc.1], nc.2))) =
          filesAt (if n ∈ exclude_dirs then [] else osWalk (rel ++ [n]) t) := rfl
      rw [e1, e2, h2, List.filter_append, List.map_append]
      congr 1
      by_cases hn : n ∈ exclude_dirs
      · rw [if_pos hn, List.filter_map]
        have hnil : List.filter ((fun pc : Path × String => cleanPath pc.1.dropLast) ∘
            fun pc : Path × String => (n :: pc.1, pc.2)) (srcFiles t) = [] := by
          apply List.filter_eq_nil_iff.mpr
          intro pc hpc
          have hne := srcFiles_path_ne_nil t pc hpc
          show ¬ (cleanPath ((n :: pc.1).dropLast) = true)
          rw [List.dropLast_cons_of_ne_nil hne, cleanPath_cons_of_mem hn]
          exact Bool.false_ne_true
        rw [hnil]
        rfl
      · rw [if_neg hn]
        have h1 := osWalk_filesAt (rel ++ [n]) t
        rw [h1, mirrorFiles, List.filter_map]
        have hcong : List.filter ((fun pc : Path × String => cleanPath pc.1.dropLast) ∘
            fun pc : Path × String => (n :: pc.1, pc.2)) (srcFiles t) =
            List.filter (fun pc : Path × String => cleanPath pc.1.dropLast) (srcFiles t) := by
          apply List.filter_congr
          intro pc hpc
          have hne := srcFiles_path_ne_nil t pc hpc
          show cleanPath ((n :: pc.1).dropLast) = cleanPath pc.1.dropLast
          rw [List.dropLast_cons_of_ne_nil hne, cleanPath_cons_of_not_mem hn]
        rw [hcong, List.map_map]
        apply List.map_congr_left
        intro pc _
        show ((rel ++ [n]) ++ pc.1, pc.2) = (rel ++ (n :: pc.1), pc.2)
        rw [List.append_assoc]
        rfl

end

/-! ## Projections of the walk contribution -/

theorem filesOut_copied_files (fails : Path → Option String) (rel : Path)
    (files : List (String × String)) :
    (filesOut fails rel files).copied_files =
      files.countP (fun nc => (fails (rel ++ [nc.1])).isNone) := by
  induction files with
  | nil => rfl
  | cons nc rest ih =>
      rw [filesOut, List.countP_cons]
      cases h : fails (rel ++ [nc.1]) <;>
        simp [RunState.append, fileOut, h, ih, Nat.add_comm]

theorem filesOut_copied_dirs (fails : Path → Option String) (rel : Path)
    (files : List (String × String)) :
    (filesOut fails rel files).copied_dirs = 0 := by
  induction files with
  | nil => rfl
  | cons nc rest ih =>
      rw [filesOut]
      cases h : fails (rel ++ [nc.1]) <;> simp [RunState.append, fileOut, h, ih]

theorem filesOut_warnings (fails : Path → Option String) (rel : Path)
    (files : List (String × String)) :
    (filesOut fails rel files).warnings =
      files.filterMap (fun nc => (fails (rel ++ [nc.1])).map (fun e => (rel ++ [nc.1], e))) := by
  induction files with
  | nil => rfl
  | cons nc rest ih =>
      rw [filesOut, List.filterMap_cons]
      cases h : fails (rel ++ [nc.1]) <;>
        simp [RunState.append, fileOut, h, ih]

theorem filesOut_trace (fails : Path → Option String) (rel : Path)
    (files : List (String × String)) :
    (filesOut fails rel files).trace = copyActs fails rel files := by
  induction files with
  | nil => rfl
  | cons nc rest ih =>
      rw [filesOut, copyActs, List.filterMap_cons]
      cases h : fails (rel ++ [nc.1]) <;>
        simp [RunState.append, fileOut, h, ih, copyActs]

theorem walkOut_copied_files (fails : Path → Option String)
    (l : List (Path × List (String × String))) :
    (walkOut fails l).copied_files =
      (filesAt l).countP (fun pc => (fails pc.1).isNone) := by
  induction l with
  | nil => rfl
  | cons rf rest ih =>
      rw [walkOut, filesAt, List.flatMap_cons, List.countP_append]
      have e1 : (rest.flatMap fun rf => rf.2.map (fun nc => (rf.1 ++ [nc.1], nc.2))) =
          filesAt rest := rfl
      rw [e1, ← ih, List.countP_map]
      simp only [RunState.append, dirOut, dirHeader, filesOut_copied_files]
      simp [RunState.append, dirOut, dirHeader, filesOut_copied_files]
      rfl

theorem walkOut_copied_dirs (fails : Path → Option String)
    (l : List (Path × List (String × String))) :
    (walkOut fails l).copied_dirs =
      (l.map Prod.fst).countP (fun rel => decide (rel ≠ [])) := by
  induction l with
  | nil => rfl
  | cons rf rest ih =>
      rw [walkOut, List.map_cons, List.countP_cons]
      by_cases h : rf.1 = [] <;>
        simp [RunState.append, dirOut, dirHeader, filesOut_copied_dirs, h, ih, Nat.add_comm]

theorem walkOut_warnings (fails : Path → Option String)
    (l : List (Path × List (String × String))) :
    (walkOut fails l).warnings =
      (filesAt l).filterMap (fun pc => (fails pc.1).map (fun e => (pc.1, e))) := by
  induction l with
  | nil => rfl
  | cons rf rest ih =>
      rw [walkOut, filesAt, List.flatMap_cons, List.filterMap_append]
      have e1 : (rest.flatMap fun rf => rf.2.map (fun nc => (rf.1 ++ [nc.1], nc.2))) =
          filesAt rest := rfl
      rw [e1, ← ih, List.filterMap_map]
      simp [RunState.append, dirOut, dirHeader, filesOut_warnings]
      rfl

theorem walkOut_trace (fails : Path → Option String)
    (l : List (Path × List (String × String))) :
    (walkOut fails l).trace =
      l.flatMap (fun rf => .mkdir .backupRoot rf.1 :: copyActs fails rf.1 rf.2) := by
  induction l with
  | nil => rfl
  | cons rf rest ih =>
      rw [walkOut, List.flatMap_cons]
      simp [RunState.append, dirOut, dirHeader, filesOut_trace, ih]

theorem mem_copyActs (fails : Path → Option String) (rel : Path)
    (files : List (String × String)) (a : Action) :
    a ∈ copyActs fails rel files ↔
      ∃ nc ∈ files, fails (rel ++ [nc.1]) = none ∧
        a = .copyFile (rel ++ [nc.1]) .backupRoot (rel ++ [nc.1]) nc.2 := by
  unfold copyActs
  rw [List.mem_filterMap]
  constructor
  · rintro ⟨nc, hnc, heq⟩
    cases h : fails (rel ++ [nc.1]) with
    | none =>
        rw [h] at heq
        injection heq with heq2
        exact ⟨nc, hnc, h, heq2.symm⟩
    | some e =>
        rw [h] at heq
        exact absurd heq (by simp)
  · rintro ⟨nc, hnc, hfail, rfl⟩
    exact ⟨nc, hnc, by rw [hfail]⟩

/-! ## The trace of a full run -/

theorem runWalk_dir_trace (fails : Path → Option String) (t : SrcTree) :
    (runWalk fails (.dir t)).trace =
      .mkdir .backupRoot [] ::
        (osWalk [] t).flatMap (fun rf => .mkdir .backupRoot rf.1 :: copyActs fails rf.1 rf.2) := by
  rw [runWalk_dir]
  show Action.mkdir .backupRoot [] :: (walkOut fails (osWalk [] t)).trace = _
  rw [walkOut_trace]

theorem runWalk_dir_copied_files (fails : Path → Option String) (t : SrcTree) :
    (runWalk fails (.dir t)).copied_files =
      (mirrorFiles t).countP (fun pc => (fails pc.1).isNone) := by
  rw [runWalk_dir]
  show 0 + (walkOut fails (osWalk [] t)).copied_files = _
  rw [Nat.zero_add, walkOut_copied_files, osWalk_filesAt, List.countP_map]
  rfl

theorem runWalk_dir_copied_dirs (fails : Path → Option String) (t : SrcTree) :
    (runWalk fails (.dir t)).copied_dirs =
      (mirrorDirs t).countP (fun q => decide (q ≠ [])) := by
  rw [runWalk_dir]
  show 0 + (walkOut fails (osWalk [] t)).copied_dirs = _
  rw [Nat.zero_add, walkOut_copied_dirs, osWalk_map_fst, List.countP_map]
  rfl

theorem runWalk_dir_warnings (fails : Path → Option String) (t : SrcTree) :
    (runWalk fails (.dir t)).warnings =
      (mirrorFiles t).filterMap (fun pc => (fails pc.1).map (fun e => (pc.1, e))) := by
  rw [runWalk_dir]
  show [] ++ (walkOut fails (osWalk [] t)).warnings = _
  rw [List.nil_append, walkOut_warnings, osWalk_filesAt, List.filterMap_map]
  rfl

/-- Every action a successful run on a directory emits is either a
directory creation under the backup root or a file copy into it. -/
theorem runWalk_trace_forms (fails : Path → Option String) (entry : SrcEntry) :
    ∀ a ∈ (runWalk fails entry).trace,
      (∃ q, a = .mkdir .backupRoot q) ∨ ∃ sp dp c, a = .copyFile sp .backupRoot dp c := by
  cases entry with
  | file c =>
      intro a ha
      rcases List.mem_singleton.mp ha with rfl
      exact Or.inl ⟨[], rfl⟩
  | dir t =>
      intro a ha
      rw [runWalk_dir_trace] at ha
      rcases List.mem_cons.mp ha with rfl | hmem
      · exact Or.inl ⟨[], rfl⟩
      · rcases List.mem_flatMap.mp hmem with ⟨rf, _, hin⟩
        rcases List.mem_cons.mp hin with rfl | hcopy
        · exact Or.inl ⟨rf.1, rfl⟩
        · rcases (mem_copyActs fails rf.1 rf.2 a).mp hcopy with ⟨nc, _, _, rfl⟩
          exact Or.inr ⟨_, _, _, rfl⟩

theorem runWalk_trace_no_remove (fails : Path → Option String) (entry : SrcEntry) :
    ∀ q r, Action.removePath r q ∉ (runWalk fails entry).trace := by
  intro q r hmem
  rcases runWalk_trace_forms fails entry _ hmem with ⟨q2, h⟩ | ⟨sp, dp, c, h⟩ <;>
    exact absurd h (by simp)

/-! ## Traces without deletions -/

theorem mem_dirs_applyAction_no_remove (d : DestFS) (a : Action) (p : Path)
    (h : ∀ q, a ≠ Action.removePath .backupRoot q) :
    p ∈ (applyAction d a).dirs ↔
      p ∈ d.dirs ∨ ∃ q, a = Action.mkdir .backupRoot q ∧ p ∈ q.inits := by
  cases a with
  | mkdir root q0 =>
      cases root with
      | backupRoot => simp [applyAction, mem_mkdirParents, or_comm]
      | sourceRoot => simp [applyAction]
  | copyFile sp root q0 c => cases root <;> simp [applyAction]
  | removePath root q0 =>
      cases root with
      | backupRoot => exact absurd rfl (h q0)
      | sourceRoot => simp [applyAction]

theorem mem_dirs_destAfter_no_remove (A : List Action) :
    ∀ (d : DestFS) (p : Path),
      (∀ q, Action.removePath .backupRoot q ∉ A) →
      (p ∈ (destAfter A d).dirs ↔
        p ∈ d.dirs ∨ ∃ q, Action.mkdir .backupRoot q ∈ A ∧ p ∈ q.inits) := by
  induction A with
  | nil => intro d p _; simp [destAfter]
  | cons a A ih =>
      intro d p h
      have hA : ∀ q, Action.removePath .backupRoot q ∉ A :=
        fun q hq => h q (List.mem_cons_of_mem a hq)
      have ha : ∀ q, a ≠ Action.removePath .backupRoot q :=
        fun q heq => h q (heq ▸ List.mem_cons_self a A)
      have hstep : destAfter (a :: A) d = destAfter A (applyAction d a) := rfl
      rw [hstep, ih _ p hA, mem_dirs_applyAction_no_remove d a p ha]
      constructor
      · rintro ((hd | ⟨q, rfl, hin⟩) | ⟨q, hq, hin⟩)
        · exact Or.inl hd
        · exact Or.inr ⟨q, List.mem_cons_self _ _, hin⟩
        · exact Or.inr ⟨q, List.mem_cons_of_mem a hq, hin⟩
      · rintro (hd | ⟨q, hq, hin⟩)
        · exact Or.inl (Or.inl hd)
        · rcases List.mem_cons.mp hq with rfl | hq2
          · exact Or.inl (Or.inr ⟨q, rfl, hin⟩)
          · exact Or.inr ⟨q, hq2, hin⟩

theorem fileVerdict_eq_some_none {p : Path} {a : Action}
    (h : fileVerdict p a = some none) : a = .removePath .backupRoot p := by
  cases a with
  | mkdir root q => cases root <;> simp [fileVerdict] at h
  | copyFile sp root q c =>
      cases root with
      | backupRoot =>
          by_cases hq : q = p <;> simp [fileVerdict, hq] at h
      | sourceRoot => simp [fileVerdict] at h
  | removePath root q =>
      cases root with
      | backupRoot =>
          by_cases hq : q = p
          · subst hq; rfl
          · simp [fileVerdict, hq] at h
      | sourceRoot => simp [fileVerdict] at h

theorem lookup_destAfter_isSome (A : List Action) :
    ∀ (d : DestFS) (p : Path) (c0 : String),
      (∀ q, Action.removePath .backupRoot q ∉ A) →
      lookupFile p d.files = some c0 →
      ∃ c, lookupFile p (destAfter A d).files = some c := by
  induction A with
  | nil => intro d p c0 _ h0; exact ⟨c0, h0⟩
  | cons a A ih =>
      intro d p c0 h h0
      have hA : ∀ q, Action.removePath .backupRoot q ∉ A :=
        fun q hq => h q (List.mem_cons_of_mem a hq)
      have hstep : destAfter (a :: A) d = destAfter A (applyAction d a) := rfl
      rw [hstep]
      rcases hv : fileVerdict p a with _ | r
      · refine ih _ p c0 hA ?_
        rw [lookup_applyAction, hv, Option.getD_none]
        exact h0
      · cases r with
        | some c1 =>
            refine ih _ p c1 hA ?_
            rw [lookup_applyAction, hv]
            rfl
        | none =>
            exact absurd (fileVerdict_eq_some_none hv ▸ List.mem_cons_self a A)
              (h p)

theorem lookup_destAfter_some_of_copy (A : List Action) :
    ∀ (d : DestFS) (p : Path),
      (∀ q, Action.removePath .backupRoot q ∉ A) →
      (∃ sp c, Action.copyFile sp .backupRoot p c ∈ A) →
      ∃ c, lookupFile p (destAfter A d).files = some c := by
  induction A with
  | nil =>
      intro d p _ hc
      rcases hc with ⟨sp, c, hmem⟩
      simp at hmem
  | cons a A ih =>
      intro d p h hc
      have hA : ∀ q, Action.removePath .backupRoot q ∉ A :=
        fun q hq => h q (List.mem_cons_of_mem a hq)
      rcases hc with ⟨sp, c, hmem⟩
      have hstep : destAfter (a :: A) d = destAfter A (applyAction d a) := rfl
      rw [hstep]
      rcases List.mem_cons.mp hmem with rfl | hmem2
      · have h1 : lookupFile p (applyAction d (.copyFile sp .backupRoot p c)).files = some c := by
          rw [lookup_applyAction]
          simp [fileVerdict]
        exact lookup_destAfter_isSome A _ p c hA h1
      · exact ih _ p hA ⟨sp, c, hmem2⟩

/-! ## Closure properties of the non-excluded directories -/

theorem cleanPath_append_left (p r : Path) (h : cleanPath (p ++ r) = true) :
    cleanPath p = true := by
  simp only [cleanPath, List.all_append, Bool.and_eq_true] at h
  exact h.1

mutual

/-- The set of source directories is closed under taking path prefixes:
an ancestor of a directory is a directory. -/
theorem srcDirs_pref (t : SrcTree) :
    ∀ p q : Path, q ∈ srcDirs t → p <+: q → p ∈ srcDirs t := by
  cases t with
  | node fs subs =>
      intro p q hq hpq
      rw [srcDirs] at hq ⊢
      rcases List.mem_cons.mp hq with rfl | hq2
      · rcases List.prefix_nil.mp hpq with rfl
        exact List.mem_cons_self _ _
      · rcases srcDirsList_pref subs p q hq2 hpq with rfl | hmem
        · exact List.mem_cons_self _ _
        · exact List.mem_cons_of_mem _ hmem

theorem srcDirsList_pref (l : List (String × SrcTree)) :
    ∀ p q : Path, q ∈ srcDirsList l → p <+: q → p = [] ∨ p ∈ srcDirsList l := by
  match l with
  | [] => intro p q hq _; rw [srcDirsList] at hq; simp at hq
  | (n, t) :: rest =>
      intro p q hq hpq
      rw [srcDirsList, List.mem_append] at hq
      rcases hq with hmap | hrest
      · obtain ⟨q0, hq0, rfl⟩ := List.mem_map.mp hmap
        cases p with
        | nil => exact Or.inl rfl
        | cons m p0 =>
            obtain ⟨rfl, hp0⟩ := (List.cons_prefix_cons.mp hpq)
            have hp0mem := srcDirs_pref t p0 q0 hq0 hp0
            refine Or.inr ?_
            rw [srcDirsList, List.mem_append]
            exact Or.inl (List.mem_map.mpr ⟨p0, hp0mem, rfl⟩)
      · rcases srcDirsList_pref rest p q hrest hpq with rfl | hmem
        · exact Or.inl rfl
        · refine Or.inr ?_
          rw [srcDirsList, List.mem_append]
          exact Or.inr hmem

end

theorem self_mem_inits (p : Path) : p ∈ p.inits :=
  (List.mem_inits p p).mpr ⟨[], List.append_nil p⟩

theorem nil_mem_mirrorDirs (t : SrcTree) : [] ∈ mirrorDirs t := by
  cases t with
  | node fs subs =>
      rw [mem_mirrorDirs]
      exact ⟨by rw [srcDirs]; exact List.mem_cons_self _ _, rfl⟩

theorem mirrorDirs_pref_closed (t : SrcTree) (p q : Path)
    (hq : q ∈ mirrorDirs t) (hpq : p ∈ q.inits) : p ∈ mirrorDirs t := by
  rw [mem_mirrorDirs] at hq ⊢
  have hpre := (List.mem_inits p q).mp hpq
  obtain ⟨r, rfl⟩ := hpre
  exact ⟨srcDirs_pref t p _ hq.1 ⟨r, rfl⟩, cleanPath_append_left p r hq.2⟩

/-! ## Membership of actions in the run trace -/

theorem mkdir_mem_runWalk_trace (fails : Path → Option String) (t : SrcTree) (q : Path) :
    Action.mkdir .backupRoot q ∈ (runWalk fails (.dir t)).trace ↔ q ∈ mirrorDirs t := by
  rw [runWalk_dir_trace]
  constructor
  · intro h
    rcases List.mem_cons.mp h with heq | hmem
    · injection heq with hroot hpath
      subst hpath
      exact nil_mem_mirrorDirs t
    · rcases List.mem_flatMap.mp hmem with ⟨rf, hrf, hin⟩
      rcases List.mem_cons.mp hin with heq | hcopy
      · injection heq with hroot hpath
        subst hpath
        have hfst : rf.1 ∈ (osWalk [] t).map Prod.fst := List.mem_map_of_mem Prod.fst hrf
        rw [osWalk_map_fst] at hfst
        rcases List.mem_map.mp hfst with ⟨q0, hq0, heq2⟩
        rw [List.nil_append] at heq2
        exact heq2 ▸ hq0
      · rcases (mem_copyActs _ _ _ _).mp hcopy with ⟨nc, _, _, heq⟩
        exact absurd heq (by simp)
  · intro h
    have h2 : q ∈ (osWalk [] t).map Prod.fst := by
      rw [osWalk_map_fst]
      exact List.mem_map.mpr ⟨q, h, by simp⟩
    rcases List.mem_map.mp h2 with ⟨rf, hrf, rfl⟩
    refine List.mem_cons_of_mem _ (List.mem_flatMap.mpr ⟨rf, hrf, ?_⟩)
    exact List.mem_cons_self _ _

theorem copy_mem_runWalk_trace (fails : Path → Option String) (t : SrcTree)
    (p : Path) (c : String) (hm : (p, c) ∈ mirrorFiles t) (hf : fails p = none) :
    Action.copyFile p .backupRoot p c ∈ (runWalk fails (.dir t)).trace := by
  rw [runWalk_dir_trace]
  have h2 : (p, c) ∈ filesAt (osWalk [] t) := by
    rw [osWalk_filesAt]
    exact List.mem_map.mpr ⟨(p, c), hm, by simp⟩
  rw [filesAt] at h2
  rcases List.mem_flatMap.mp h2 with ⟨rf, hrf, hin⟩
  rcases List.mem_map.mp hin with ⟨nc, hnc, heq⟩
  have hfst : rf.1 ++ [nc.1] = p := congrArg Prod.fst heq
  have hsnd : nc.2 = c := congrArg Prod.snd heq
  refine List.mem_cons_of_mem _ (List.mem_flatMap.mpr ⟨rf, hrf, List.mem_cons_of_mem _ ?_⟩)
  refine (mem_copyActs fails rf.1 rf.2 _).mpr ⟨nc, hnc, ?_, ?_⟩
  · rw [hfst]
    exact hf
  · rw [hfst, hsnd]

/-! ## The claims -/

/-- C1: after a run of `create_backup` on a source directory tree that
completes without a fatal error, starting from an empty destination, the
directories of the destination tree are exactly the source directories
whose relative path contains no component of the exclusion set; the source
root (`[]`) maps to the destination root itself, and no other directories
appear. -/
theorem claim1_dest_dirs (fails : Path → Option String) (t : SrcTree) (p : Path) :
    p ∈ (destAfter (writesOf (create_backup fails (some (.dir t)) none)) emptyDest).dirs ↔
      p ∈ srcDirs t ∧ cleanPath p = true := by
  have hw : writesOf (create_backup fails (some (.dir t)) none) =
      (runWalk fails (.dir t)).trace := rfl
  rw [hw, ← mem_mirrorDirs,
    mem_dirs_destAfter_no_remove _ emptyDest p
      (fun q => runWalk_trace_no_remove fails _ q .backupRoot)]
  constructor
  · rintro (hd | ⟨q, hq, hin⟩)
    · exact absurd hd (by simp [emptyDest])
    · exact mirrorDirs_pref_closed t p q
        ((mkdir_mem_runWalk_trace fails t q).mp hq) hin
  · intro h
    exact Or.inr ⟨p, (mkdir_mem_runWalk_trace fails t p).mpr h, self_mem_inits p⟩

/-- C2: no file or directory whose path passes through an excluded
directory component is ever created in the destination — every directory
the run creates has a fully clean path and every file it copies lies in a
directory with a fully clean path — and the pruning happens before
descending, so every directory the walk visits already has a clean path
(excluded subtrees are never visited). -/
theorem claim2_excluded_never_created (fails : Path → Option String) (t : SrcTree) :
    (writesOf (create_backup fails (some (.dir t)) none)).all actionClean = true
    ∧ ((osWalk [] t).map Prod.fst).all cleanPath = true := by
  constructor
  · rw [List.all_eq_true]
    intro a ha
    have ha2 : a ∈ (runWalk fails (.dir t)).trace := ha
    rw [runWalk_dir_trace] at ha2
    rcases List.mem_cons.mp ha2 with rfl | hmem
    · rfl
    · rcases List.mem_flatMap.mp hmem with ⟨rf, hrf, hin⟩
      have hclean : cleanPath rf.1 = true := by
        have hfst : rf.1 ∈ (osWalk [] t).map Prod.fst := List.mem_map_of_mem Prod.fst hrf
        rw [osWalk_map_fst] at hfst
        rcases List.mem_map.mp hfst with ⟨q0, hq0, heq⟩
        rw [List.nil_append] at heq
        exact heq ▸ ((mem_mirrorDirs t q0).mp hq0).2
      rcases List.mem_cons.mp hin with rfl | hcopy
      · exact hclean
      · rcases (mem_copyActs _ _ _ _).mp hcopy with ⟨nc, hnc, hok, rfl⟩
        show cleanPath (rf.1 ++ [nc.1]).dropLast = true
        rw [List.dropLast_concat]
        exact hclean
  · rw [List.all_eq_true]
    intro rel hrel
    rw [osWalk_map_fst] at hrel
    rcases List.mem_map.mp hrel with ⟨q0, hq0, heq⟩
    rw [List.nil_append] at heq
    exact heq ▸ ((mem_mirrorDirs t q0).mp hq0).2

/-- C3: on the concrete source tree `{a/x.txt, a/node_modules/y.txt, b.txt}`
a successful run copies exactly `{a/x.txt, b.txt}` into the destination,
with `directories-created = 1` (only `a`; the root is not counted) and
`files-copied = 2`. -/
theorem claim3_worked_example :
    (runWalk (fun _ => none) (.dir exampleTree)).copied_files = 2
    ∧ (runWalk (fun _ => none) (.dir exampleTree)).copied_dirs = 1
    ∧ (destAfter (writesOf (create_backup (fun _ => none) (some (.dir exampleTree)) none))
        emptyDest).dirs = [[], ["a"]]
    ∧ (destAfter (writesOf (create_backup (fun _ => none) (some (.dir exampleTree)) none))
        emptyDest).files = [(["b.txt"], "B"), (["a", "x.txt"], "X")] :=
  ⟨rfl, rfl, rfl, rfl⟩

/-- C4: per-file copy failures are collected as warnings naming the failing
source path and its error, in file order; the files-copied counter counts
exactly the non-excluded files whose copy succeeded; and files-copied plus
the number of warnings equals the total number of files in non-excluded
directories — so no single failure aborts the run. -/
theorem claim4_per_file_failure (fails : Path → Option String) (t : SrcTree) :
    (runWalk fails (.dir t)).warnings =
      (mirrorFiles t).filterMap (fun pc => (fails pc.1).map (fun e => (pc.1, e)))
    ∧ (runWalk fails (.dir t)).copied_files =
      (mirrorFiles t).countP (fun pc => (fails pc.1).isNone)
    ∧ (runWalk fails (.dir t)).copied_files + ((runWalk fails (.dir t)).warnings).length =
      (mirrorFiles t).length := by
  refine ⟨runWalk_dir_warnings fails t, runWalk_dir_copied_files fails t, ?_⟩
  rw [runWalk_dir_warnings, runWalk_dir_copied_files, List.length_filterMap_eq_countP]
  have hc : (mirrorFiles t).countP
        (fun pc => ((fails pc.1).map (fun e => (pc.1, e))).isSome)
      = (mirrorFiles t).countP (fun pc => !(fails pc.1).isNone) := by
    apply List.countP_congr
    intro pc _
    rw [Option.isSome_map']
    cases fails pc.1 <;> simp
  rw [hc]
  have hlen := List.length_eq_countP_add_countP
    (fun pc : Path × String => (fails pc.1).isNone) (mirrorFiles t)
  rw [hlen]
  congr 1
  apply List.countP_congr
  intro pc _
  cases fails pc.1 <;> simp

/-- C5 counterexample: a source path that exists but is a regular file, not
a directory, refutes the claim as stated: the run writes to the destination
(it creates the backup root) and the process exits 0, because line 30 only
checks `source_dir.exists()` and `os.walk` over a non-directory yields
nothing. -/
theorem claim5_counterexample :
    mainExit (create_backup (fun _ => none) (some (.file "data")) none) = 0
    ∧ writesOf (create_backup (fun _ => none) (some (.file "data")) none) ≠ [] := by
  exact ⟨rfl, by decide⟩

/-- C5 (amended): for every source path that does not exist at all,
`create_backup` fails fast: it raises `sys.exit(1)`, the process exits with
status 1, and no filesystem write to the destination is performed. -/
theorem claim5_missing_source_fails_fast (fails : Path → Option String)
    (fault : Option Fault) :
    create_backup fails none fault = .sysExit 1
    ∧ mainExit (create_backup fails none fault) = 1
    ∧ writesOf (create_backup fails none fault) = [] :=
  ⟨rfl, rfl, rfl⟩

/-- C6: the process exit status is 0 exactly when `create_backup` returns
normally; it is 1 when the source is missing, when the destination root
cannot be created (an unhandled error, reported as a failure), and when the
user interrupts the run — the interrupt being caught distinctly and
reported as a cancellation. -/
theorem claim6_exit_codes (fails : Path → Option String) (src : Option SrcEntry)
    (fault : Option Fault) (entry : SrcEntry) (m : String) :
    (mainExit (create_backup fails src fault) = 0 ↔
      (create_backup fails src fault).isOk = true)
    ∧ mainExit (create_backup fails none fault) = 1
    ∧ mainExit (create_backup fails (some entry) (some (.destMkdirError m))) = 1
    ∧ mainReport (create_backup fails (some entry) (some (.destMkdirError m))) = .failed m
    ∧ mainExit (create_backup fails (some entry) (some .interrupt)) = 1
    ∧ mainReport (create_backup fails (some entry) (some .interrupt)) = .cancelled := by
  refine ⟨?_, rfl, rfl, rfl, rfl, rfl⟩
  cases src with
  | none => simp [create_backup, mainExit, PyOutcome.isOk]
  | some e =>
      cases fault with
      | none => simp [create_backup, mainExit, PyOutcome.isOk]
      | some f => cases f <;> simp [create_backup, mainExit, PyOutcome.isOk]

/-- C7: running the backup twice in succession on an unchanged source
yields a destination filesystem identical in directory structure and file
content to running it once, from any starting destination state. -/
theorem claim7_idempotent (fails : Path → Option String) (t : SrcTree) (d0 : DestFS) :
    destEquiv
      (destAfter (writesOf (create_backup fails (some (.dir t)) none))
        (destAfter (writesOf (create_backup fails (some (.dir t)) none)) d0))
      (destAfter (writesOf (create_backup fails (some (.dir t)) none)) d0) :=
  destAfter_idem _ d0

/-- C8: every filesystem action any run performs is a directory creation
under the backup root or a file copy into the backup root: nothing under
the source tree is ever deleted, written, or otherwise modified. -/
theorem claim8_source_never_touched (fails : Path → Option String)
    (src : Option SrcEntry) (fault : Option Fault) :
    (writesOf (create_backup fails src fault)).all destWriteOnly = true := by
  cases src with
  | none => rfl
  | some entry =>
      cases fault with
      | none =>
          show ((runWalk fails entry).trace).all destWriteOnly = true
          rw [List.all_eq_true]
          intro a ha
          rcases runWalk_trace_forms fails entry a ha with ⟨q, rfl⟩ | ⟨sp, dp, c, rfl⟩ <;> rfl
      | some f => cases f <;> rfl

/-- C9: the exclusion set applies only to directories: a regular file whose
own name is in the exclusion set, sitting in a non-excluded directory, is
still copied (the copy action is emitted, the file exists at the mirrored
destination path) and contributes to the files-copied counter. -/
theorem claim9_exclusion_only_for_dirs (fails : Path → Option String) (t : SrcTree)
    (p : Path) (c : String)
    (hmem : (p, c) ∈ mirrorFiles t)
    (_hname : p.getLastD "" ∈ exclude_dirs)
    (hok : fails p = none) :
    Action.copyFile p .backupRoot p c ∈ (runWalk fails (.dir t)).trace
    ∧ (∃ c2, lookupFile p (destAfter (writesOf (create_backup fails (some (.dir t)) none))
        emptyDest).files = some c2)
    ∧ 0 < (runWalk fails (.dir t)).copied_files := by
  refine ⟨copy_mem_runWalk_trace fails t p c hmem hok, ?_, ?_⟩
  · exact lookup_destAfter_some_of_copy _ emptyDest p
      (fun q => runWalk_trace_no_remove fails _ q .backupRoot)
      ⟨p, c, copy_mem_runWalk_trace fails t p c hmem hok⟩
  · rw [runWalk_dir_copied_files]
    refine List.countP_pos_iff.mpr ⟨(p, c), hmem, ?_⟩
    rw [hok]
    rfl

/-- C9 witness: a source tree with a single regular file literally named
`dist` at the root; the file is copied, present in the destination, and
counted. -/
theorem claim9_witness :
    Action.copyFile ["dist"] .backupRoot ["dist"] "D" ∈
      (runWalk (fun _ => none) (.dir (SrcTree.node [("dist", "D")] []))).trace
    ∧ (∃ c2, lookupFile ["dist"] (destAfter (writesOf (create_backup (fun _ => none)
        (some (.dir (SrcTree.node [("dist", "D")] []))) none)) emptyDest).files = some c2)
    ∧ 0 < (runWalk (fun _ => none) (.dir (SrcTree.node [("dist", "D")] []))).copied_files :=
  claim9_exclusion_only_for_dirs (fun _ => none) (SrcTree.node [("dist", "D")] [])
    ["dist"] "D" (by decide) (by decide) rfl

/-- C10: whenever the source check passes and no fatal fault occurs, the
run returns normally, prints the completion summary, and the process exits
with status 0 — regardless of how many individual file copies failed. -/
theorem claim10_exit_zero_despite_failures (fails : Path → Option String)
    (entry : SrcEntry) :
    (create_backup fails (some entry) none).isOk = true
    ∧ mainExit (create_backup fails (some entry) none) = 0
    ∧ mainReport (create_backup fails (some entry) none) =
        .completed (runWalk fails entry) :=
  ⟨rfl, rfl, rfl⟩

end CreateBackup
